import Mathlib

/-!
Verification of the chunk-streaming, voxel-data and collision subsystem of a
voxel world engine (three.js Minecraft-style clone).

World / chunk coordinates are integers; continuous world positions are
modelled as rationals (`ℚ`).  The physics geometry (which uses a real square
root) is modelled over `ℝ` further below.

The `WorldChunk` class itself (its voxel array, instance table and loaded
flag) is not among the provided sources; following the specification it is
modelled abstractly: a chunk's private state is a type parameter `C` and the
operations the `World` class invokes on it (`addBlock`, `removeBlock`,
`addBlockInstance`, `deleteBlockInstance`, `isBlockObscured`, `getBlock`,
`loaded`) are fields of a `ChunkOps` record.
-/

/-- A closed integer interval `[a, b]` as a list, in increasing order.
Models a JS `for (let i = a; i <= b; i++)` loop. -/
def intRange (a b : ℤ) : List ℤ :=
  (List.range (b + 1 - a).toNat).map (fun (i : ℕ) => a + (i : ℤ))

theorem mem_intRange {a b x : ℤ} : x ∈ intRange a b ↔ a ≤ x ∧ x ≤ b := by
  simp only [intRange, List.mem_map, List.mem_range]
  constructor
  · rintro ⟨i, hi, rfl⟩
    omega
  · intro h
    exact ⟨(x - a).toNat, by omega, by omega⟩

namespace World

/-- The `chunk` half of `worldToChunkCoords`' result (`{x, z}`). -/
structure ChunkXZ where
  x : ℤ
  z : ℤ
deriving DecidableEq

/-- The `block` half of `worldToChunkCoords`' result (`{x, y, z}`). -/
structure BlockXYZ where
  x : ℚ
  y : ℚ
  z : ℚ
deriving DecidableEq

/-- Result shape of `World.worldToChunkCoords`. -/
structure Coords where
  chunk : ChunkXZ
  block : BlockXYZ
deriving DecidableEq

/-- One child of the `World` group: a chunk with its `userData = {x, z}`
chunk coordinate and its (abstract) private state. -/
structure WChunk (C : Type) where
  x : ℤ
  z : ℤ
  data : C
deriving DecidableEq

/-- The `World` state: `drawDistance`, `chunkSize.width` (32 in the source)
and the list of child chunks (`this.children` of the `THREE.Group`). -/
structure WorldState (C : Type) where
  drawDistance : ℕ
  width : ℕ
  children : List (WChunk C)
deriving DecidableEq

/-- Modelled from the spec: the operations the `World` class invokes on a
`WorldChunk` (the `worldChunk.js` source file is not provided).  `C` is the
chunk's private state, `B` the block record returned by `getBlock`
(`{id, instanceId}`). -/
structure ChunkOps (C B : Type) where
  addBlock : C → ℚ → ℚ → ℚ → ℕ → C
  removeBlock : C → ℚ → ℚ → ℚ → C
  addBlockInstance : C → ℚ → ℚ → ℚ → C
  deleteBlockInstance : C → ℚ → ℚ → ℚ → C
  isBlockObscured : C → ℚ → ℚ → ℚ → Bool
  getBlock : C → ℚ → ℚ → ℚ → Option B
  loaded : C → Bool

variable {C B : Type}

/-- `World.worldToChunkCoords(x, y, z)`:
`chunkCoords = {floor(x / width), floor(z / width)}`,
`blockCoords = {x - width * chunk.x, y, z - width * chunk.z}`. -/
def WorldState.worldToChunkCoords (w : WorldState C) (x y z : ℚ) : Coords :=
  let cx : ℤ := ⌊x / (w.width : ℚ)⌋
  let cz : ℤ := ⌊z / (w.width : ℚ)⌋
  { chunk := ⟨cx, cz⟩
    block := ⟨x - (w.width : ℚ) * (cx : ℚ), y, z - (w.width : ℚ) * (cz : ℚ)⟩ }

/-- `World.getChunk(chunkX, chunkZ)`: `this.children.find(...)` on the
`userData` coordinates. -/
def WorldState.getChunk (w : WorldState C) (chunkX chunkZ : ℤ) : Option (WChunk C) :=
  w.children.find? (fun ch => ch.x == chunkX && ch.z == chunkZ)

/-- `World.getVisibleChunks(player)`: the square of chunk coordinates within
`drawDistance` of the player's chunk, produced by two nested `for` loops. -/
def WorldState.getVisibleChunks (w : WorldState C) (px py pz : ℚ) : List (ℤ × ℤ) :=
  let coords := w.worldToChunkCoords px py pz
  let chunkX := coords.chunk.x
  let chunkZ := coords.chunk.z
  (intRange (chunkX - w.drawDistance) (chunkX + w.drawDistance)).flatMap
    (fun x => (intRange (chunkZ - w.drawDistance) (chunkZ + w.drawDistance)).map
      (fun z => (x, z)))

/-- `World.getChunksToAdd(visibleChunks)`: the visible coordinates for which
no child chunk with matching `userData` exists. -/
def WorldState.getChunksToAdd (w : WorldState C) (visibleChunks : List (ℤ × ℤ)) :
    List (ℤ × ℤ) :=
  visibleChunks.filter (fun c =>
    (w.children.find? (fun ch => c.1 == ch.x && c.2 == ch.z)).isNone)

/-- `World.removeUnusedChunks(visibleChunks)`: dispose and detach every child
whose coordinate is not in the visible list; the net effect on `children` is
keeping exactly the children found in the visible list. -/
def WorldState.removeUnusedChunks (w : WorldState C) (visibleChunks : List (ℤ × ℤ)) :
    WorldState C :=
  { w with children := w.children.filter (fun ch =>
      (visibleChunks.find? (fun v => v.1 == ch.x && v.2 == ch.z)).isSome) }

/-- `World.generateChunk(x, z)`: create a chunk (generated now or deferred to
an idle callback — in both cases `this.add(chunk)` runs immediately, so the
coordinate counts as present), with `userData = {x, z}`.  `mk` models
`new WorldChunk(chunkSize, params, dataStore)` plus its (possibly deferred)
generation. -/
def WorldState.generateChunk (w : WorldState C) (x z : ℤ) (mk : ℤ → ℤ → C) :
    WorldState C :=
  { w with children := w.children ++ [⟨x, z, mk x z⟩] }

/-- `World.update(player)`: compute visible chunks, diff against the loaded
set, remove the unused ones, then generate each newly visible one. -/
def WorldState.update (w : WorldState C) (mk : ℤ → ℤ → C) (px py pz : ℚ) :
    WorldState C :=
  let visibleChunks := w.getVisibleChunks px py pz
  let chunksToAdd := w.getChunksToAdd visibleChunks
  let w1 := w.removeUnusedChunks visibleChunks
  chunksToAdd.foldl (fun acc c => acc.generateChunk c.1 c.2 mk) w1

/-- `World.getBlock(x, y, z)`: absent unless the owning chunk exists and is
loaded, otherwise delegate at the local block coordinates. -/
def WorldState.getBlock (ops : ChunkOps C B) (w : WorldState C) (x y z : ℚ) :
    Option B :=
  let coords := w.worldToChunkCoords x y z
  match w.getChunk coords.chunk.x coords.chunk.z with
  | some chunk =>
      if ops.loaded chunk.data then
        ops.getBlock chunk.data coords.block.x coords.block.y coords.block.z
      else none
  | none => none

/-- Replace the first chunk matching the predicate by applying `f` to its
state (models in-place mutation of the object returned by `children.find`). -/
def replaceFirst (p : WChunk C → Bool) (f : C → C) : List (WChunk C) → List (WChunk C)
  | [] => []
  | ch :: rest =>
      if p ch then { ch with data := f ch.data } :: rest
      else ch :: replaceFirst p f rest

/-- Apply `f` to the state of the first chunk at `(chunkX, chunkZ)`. -/
def WorldState.updateChunk (w : WorldState C) (chunkX chunkZ : ℤ) (f : C → C) :
    WorldState C :=
  { w with children :=
      replaceFirst (fun ch => ch.x == chunkX && ch.z == chunkZ) f w.children }

/-- `World.hideBlock(x, y, z)`: if the owning chunk exists and the block is
obscured there, delete its instance. -/
def WorldState.hideBlock (ops : ChunkOps C B) (w : WorldState C) (x y z : ℚ) :
    WorldState C :=
  let coords := w.worldToChunkCoords x y z
  match w.getChunk coords.chunk.x coords.chunk.z with
  | some chunk =>
      if ops.isBlockObscured chunk.data coords.block.x coords.block.y coords.block.z then
        w.updateChunk coords.chunk.x coords.chunk.z
          (fun c => ops.deleteBlockInstance c coords.block.x coords.block.y coords.block.z)
      else w
  | none => w

/-- `World.revealBlock(x, y, z)`: if the owning chunk exists, add a block
instance there. -/
def WorldState.revealBlock (ops : ChunkOps C B) (w : WorldState C) (x y z : ℚ) :
    WorldState C :=
  let coords := w.worldToChunkCoords x y z
  match w.getChunk coords.chunk.x coords.chunk.z with
  | some _ =>
      w.updateChunk coords.chunk.x coords.chunk.z
        (fun c => ops.addBlockInstance c coords.block.x coords.block.y coords.block.z)
  | none => w

/-- `World.addBlock(x, y, z, blockId)`: no-op if no owning chunk; otherwise
delegate the mutation, then hide each of the six axis-adjacent neighbors. -/
def WorldState.addBlock (ops : ChunkOps C B) (w : WorldState C) (x y z : ℚ)
    (blockId : ℕ) : WorldState C :=
  let coords := w.worldToChunkCoords x y z
  match w.getChunk coords.chunk.x coords.chunk.z with
  | some _ =>
      let w1 := w.updateChunk coords.chunk.x coords.chunk.z
        (fun c => ops.addBlock c coords.block.x coords.block.y coords.block.z blockId)
      let w2 := w1.hideBlock ops (x - 1) y z
      let w3 := w2.hideBlock ops (x + 1) y z
      let w4 := w3.hideBlock ops x (y - 1) z
      let w5 := w4.hideBlock ops x (y + 1) z
      let w6 := w5.hideBlock ops x y (z - 1)
      w6.hideBlock ops x y (z + 1)
  | none => w

/-- `World.removeBlock(x, y, z)`: no-op if no owning chunk; otherwise delegate
the mutation, then reveal each of the six axis-adjacent neighbors. -/
def WorldState.removeBlock (ops : ChunkOps C B) (w : WorldState C) (x y z : ℚ) :
    WorldState C :=
  let coords := w.worldToChunkCoords x y z
  match w.getChunk coords.chunk.x coords.chunk.z with
  | some _ =>
      let w1 := w.updateChunk coords.chunk.x coords.chunk.z
        (fun c => ops.removeBlock c coords.block.x coords.block.y coords.block.z)
      let w2 := w1.revealBlock ops (x - 1) y z
      let w3 := w2.revealBlock ops (x + 1) y z
      let w4 := w3.revealBlock ops x (y - 1) z
      let w5 := w4.revealBlock ops x (y + 1) z
      let w6 := w5.revealBlock ops x y (z - 1)
      w6.revealBlock ops x y (z + 1)
  | none => w

/-- The six axis-adjacent world neighbors of `(x, y, z)`, in the order the
source visits them. -/
def sixNeighbors (x y z : ℚ) : List (ℚ × ℚ × ℚ) :=
  [(x - 1, y, z), (x + 1, y, z), (x, y - 1, z), (x, y + 1, z), (x, y, z - 1), (x, y, z + 1)]

/-- Spec-side restatement of `addBlock` (follows the specification's words):
locate the owning chunk; if absent, no-op; otherwise delegate the mutation and
then re-evaluate (hide) exactly the six axis-adjacent world neighbors. -/
def WorldState.specAddBlock (ops : ChunkOps C B) (w : WorldState C) (x y z : ℚ)
    (blockId : ℕ) : WorldState C :=
  let coords := w.worldToChunkCoords x y z
  match w.getChunk coords.chunk.x coords.chunk.z with
  | some _ =>
      let delegated := w.updateChunk coords.chunk.x coords.chunk.z
        (fun c => ops.addBlock c coords.block.x coords.block.y coords.block.z blockId)
      (sixNeighbors x y z).foldl
        (fun acc n => acc.hideBlock ops n.1 n.2.1 n.2.2) delegated
  | none => w

/-- Spec-side restatement of `removeBlock` (follows the specification's
words): locate the owning chunk; if absent, no-op; otherwise delegate the
mutation and then re-evaluate (reveal) exactly the six axis-adjacent world
neighbors. -/
def WorldState.specRemoveBlock (ops : ChunkOps C B) (w : WorldState C) (x y z : ℚ) :
    WorldState C :=
  let coords := w.worldToChunkCoords x y z
  match w.getChunk coords.chunk.x coords.chunk.z with
  | some _ =>
      let delegated := w.updateChunk coords.chunk.x coords.chunk.z
        (fun c => ops.removeBlock c coords.block.x coords.block.y coords.block.z)
      (sixNeighbors x y z).foldl
        (fun acc n => acc.revealBlock ops n.1 n.2.1 n.2.2) delegated
  | none => w

theorem foldl_generateChunk_children (l : List (ℤ × ℤ)) (w : WorldState C)
    (mk : ℤ → ℤ → C) :
    (l.foldl (fun acc c => acc.generateChunk c.1 c.2 mk) w).children
      = w.children ++ l.map (fun c => ⟨c.1, c.2, mk c.1 c.2⟩) := by
  induction l generalizing w with
  | nil => simp
  | cons hd tl ih =>
      rw [List.foldl_cons, ih]
      simp [WorldState.generateChunk]

theorem mem_getVisibleChunks (w : WorldState C) (px py pz : ℚ) (cx cz : ℤ) :
    (cx, cz) ∈ w.getVisibleChunks px py pz ↔
      |cx - (w.worldToChunkCoords px py pz).chunk.x| ≤ w.drawDistance ∧
      |cz - (w.worldToChunkCoords px py pz).chunk.z| ≤ w.drawDistance := by
  simp only [WorldState.getVisibleChunks, List.mem_flatMap, List.mem_map,
    mem_intRange, Prod.mk.injEq, abs_le]
  constructor
  · rintro ⟨x, ⟨hx1, hx2⟩, z, ⟨hz1, hz2⟩, rfl, rfl⟩
    omega
  · rintro ⟨⟨h1, h2⟩, h3, h4⟩
    exact ⟨cx, ⟨by omega, by omega⟩, cz, ⟨by omega, by omega⟩, rfl, rfl⟩

theorem update_children_eq (w : WorldState C) (mk : ℤ → ℤ → C) (px py pz : ℚ) :
    (w.update mk px py pz).children
      = (w.children.filter fun ch =>
          ((w.getVisibleChunks px py pz).find? (fun v => v.1 == ch.x && v.2 == ch.z)).isSome)
        ++ ((w.getChunksToAdd (w.getVisibleChunks px py pz)).map
              fun c => (⟨c.1, c.2, mk c.1 c.2⟩ : WChunk C)) := by
  simp only [WorldState.update, WorldState.removeUnusedChunks]
  rw [foldl_generateChunk_children]

theorem exists_filter_keep (w : WorldState C) (vis : List (ℤ × ℤ)) (cx cz : ℤ) :
    (∃ ch ∈ w.children.filter
        (fun ch => (vis.find? (fun v => v.1 == ch.x && v.2 == ch.z)).isSome),
      ch.x = cx ∧ ch.z = cz)
    ↔ ((∃ ch ∈ w.children, ch.x = cx ∧ ch.z = cz) ∧ (cx, cz) ∈ vis) := by
  constructor
  · rintro ⟨ch, hmem, hx, hz⟩
    obtain ⟨hch, hkeep⟩ := List.mem_filter.mp hmem
    obtain ⟨v, hv, hpv⟩ := List.find?_isSome.mp hkeep
    simp only [Bool.and_eq_true, beq_iff_eq] at hpv
    have hveq : v = (cx, cz) := by
      obtain ⟨v1, v2⟩ := v
      simp only [Prod.mk.injEq]
      exact ⟨hpv.1.trans hx, hpv.2.trans hz⟩
    exact ⟨⟨ch, hch, hx, hz⟩, hveq ▸ hv⟩
  · rintro ⟨⟨ch, hch, hx, hz⟩, hvis⟩
    refine ⟨ch, List.mem_filter.mpr ⟨hch, ?_⟩, hx, hz⟩
    exact List.find?_isSome.mpr ⟨(cx, cz), hvis, by simp [hx, hz]⟩

theorem exists_mem_added (l : List (ℤ × ℤ)) (mk : ℤ → ℤ → C) (cx cz : ℤ) :
    (∃ ch ∈ l.map (fun c => (⟨c.1, c.2, mk c.1 c.2⟩ : WChunk C)),
        ch.x = cx ∧ ch.z = cz)
      ↔ (cx, cz) ∈ l := by
  constructor
  · rintro ⟨ch, hmem, hx, hz⟩
    obtain ⟨⟨c1, c2⟩, hc, hceq⟩ := List.mem_map.mp hmem
    subst hceq
    have h1 : c1 = cx := hx
    have h2 : c2 = cz := hz
    subst h1
    subst h2
    exact hc
  · intro h
    exact ⟨⟨cx, cz, mk cx cz⟩, List.mem_map.mpr ⟨(cx, cz), h, rfl⟩, rfl, rfl⟩

theorem mem_getChunksToAdd (w : WorldState C) (vis : List (ℤ × ℤ)) (cx cz : ℤ) :
    (cx, cz) ∈ w.getChunksToAdd vis
      ↔ ((cx, cz) ∈ vis ∧ ¬ ∃ ch ∈ w.children, ch.x = cx ∧ ch.z = cz) := by
  unfold WorldState.getChunksToAdd
  rw [List.mem_filter]
  constructor
  · rintro ⟨h1, h2⟩
    refine ⟨h1, ?_⟩
    rintro ⟨ch, hch, hx, hz⟩
    rw [Option.isNone_iff_eq_none, List.find?_eq_none] at h2
    exact absurd (by simp [hx, hz] :
      (((cx, cz).1 == ch.x && (cx, cz).2 == ch.z) = true)) (h2 ch hch)
  · rintro ⟨h1, h2⟩
    refine ⟨h1, ?_⟩
    rw [Option.isNone_iff_eq_none, List.find?_eq_none]
    intro ch hch hp
    simp only [Bool.and_eq_true, beq_iff_eq] at hp
    exact h2 ⟨ch, hch, hp.1.symm, hp.2.symm⟩

/-- C1: after `World.update(player)` completes (deferred generations count as
loaded coordinates, since `this.add(chunk)` runs immediately), a chunk
coordinate `(cx, cz)` is present among the children exactly when it lies in
the square of radius `drawDistance` around the observer's chunk coordinate:
no chunk outside the square remains and every coordinate inside it is
present. -/
theorem update_streams_exact_square (w : WorldState C) (mk : ℤ → ℤ → C)
    (px py pz : ℚ) (cx cz : ℤ) :
    (∃ ch ∈ (w.update mk px py pz).children, ch.x = cx ∧ ch.z = cz) ↔
      (|cx - (w.worldToChunkCoords px py pz).chunk.x| ≤ w.drawDistance ∧
       |cz - (w.worldToChunkCoords px py pz).chunk.z| ≤ w.drawDistance) := by
  classical
  rw [← mem_getVisibleChunks w px py pz cx cz]
  rw [update_children_eq]
  simp only [List.mem_append, or_and_right, exists_or]
  rw [exists_filter_keep, exists_mem_added, mem_getChunksToAdd]
  constructor
  · rintro (⟨_, hv⟩ | ⟨hv, _⟩) <;> exact hv
  · intro hv
    by_cases hex : ∃ ch ∈ w.children, ch.x = cx ∧ ch.z = cz
    · exact Or.inl ⟨hex, hv⟩
    · exact Or.inr ⟨hv, hex⟩

/-- C2: `worldToChunkCoords` computes `cx = ⌊x / W⌋`, `cz = ⌊z / W⌋`,
`lx = x - W * cx`, `ly = y`, `lz = z - W * cz` (`W` the chunk width); it is a
pure total Lean function with no error case, and reconstructing world
coordinates as `(W * cx + lx, ly, W * cz + lz)` returns the original
`(x, y, z)` (round-trip law). -/
theorem worldToChunkCoords_floor_and_roundtrip (w : WorldState C) (x y z : ℚ) :
    ((w.worldToChunkCoords x y z).chunk.x = ⌊x / (w.width : ℚ)⌋ ∧
     (w.worldToChunkCoords x y z).chunk.z = ⌊z / (w.width : ℚ)⌋ ∧
     (w.worldToChunkCoords x y z).block.x
       = x - (w.width : ℚ) * ((w.worldToChunkCoords x y z).chunk.x : ℚ) ∧
     (w.worldToChunkCoords x y z).block.y = y ∧
     (w.worldToChunkCoords x y z).block.z
       = z - (w.width : ℚ) * ((w.worldToChunkCoords x y z).chunk.z : ℚ)) ∧
    ((w.width : ℚ) * ((w.worldToChunkCoords x y z).chunk.x : ℚ)
        + (w.worldToChunkCoords x y z).block.x = x ∧
     (w.worldToChunkCoords x y z).block.y = y ∧
     (w.width : ℚ) * ((w.worldToChunkCoords x y z).chunk.z : ℚ)
        + (w.worldToChunkCoords x y z).block.z = z) := by
  refine ⟨⟨rfl, rfl, rfl, rfl, rfl⟩, ?_, rfl, ?_⟩ <;>
    · simp only [WorldState.worldToChunkCoords]
      ring

/-- C8: `addBlock`/`removeBlock` are no-ops when no chunk owns the mapped
chunk coordinate; when the owning chunk exists, they delegate the mutation to
it and then, regardless of whether the chunk-level mutation succeeded,
re-evaluate exactly the six axis-adjacent world neighbors — `addBlock` hides
each neighbor instance that is now obscured, `removeBlock` reveals each
neighbor (the spec-side functions fold the hide/reveal step over the
six-neighbor list). -/
theorem addRemoveBlock_neighbor_fixup (ops : ChunkOps C B) (w : WorldState C)
    (x y z : ℚ) (blockId : ℕ) :
    (w.getChunk (w.worldToChunkCoords x y z).chunk.x
        (w.worldToChunkCoords x y z).chunk.z = none →
      WorldState.addBlock ops w x y z blockId = w ∧
      WorldState.removeBlock ops w x y z = w) ∧
    WorldState.addBlock ops w x y z blockId
      = WorldState.specAddBlock ops w x y z blockId ∧
    WorldState.removeBlock ops w x y z = WorldState.specRemoveBlock ops w x y z := by
  refine ⟨fun h => ⟨?_, ?_⟩, ?_, ?_⟩
  · simp only [WorldState.addBlock, h]
  · simp only [WorldState.removeBlock, h]
  · cases hc : w.getChunk (w.worldToChunkCoords x y z).chunk.x
        (w.worldToChunkCoords x y z).chunk.z with
    | none =>
        simp only [WorldState.addBlock, WorldState.specAddBlock, hc]
    | some ch =>
        simp only [WorldState.addBlock, WorldState.specAddBlock, hc,
          sixNeighbors, List.foldl_cons, List.foldl_nil]
  · cases hc : w.getChunk (w.worldToChunkCoords x y z).chunk.x
        (w.worldToChunkCoords x y z).chunk.z with
    | none =>
        simp only [WorldState.removeBlock, WorldState.specRemoveBlock, hc]
    | some ch =>
        simp only [WorldState.removeBlock, WorldState.specRemoveBlock, hc,
          sixNeighbors, List.foldl_cons, List.foldl_nil]

/-- C9: `getBlock` returns `none` whenever the owning chunk does not exist or
is not loaded, and otherwise returns the owning chunk's `getBlock` at the
mapped local coordinates; it is a total Lean function over `Option`, so it
never throws for any input coordinate. -/
theorem getBlock_absent_or_delegates (ops : ChunkOps C B) (w : WorldState C)
    (x y z : ℚ) :
    (w.getChunk (w.worldToChunkCoords x y z).chunk.x
        (w.worldToChunkCoords x y z).chunk.z = none →
      WorldState.getBlock ops w x y z = none) ∧
    (∀ ch, w.getChunk (w.worldToChunkCoords x y z).chunk.x
        (w.worldToChunkCoords x y z).chunk.z = some ch →
      ops.loaded ch.data = false → WorldState.getBlock ops w x y z = none) ∧
    (∀ ch, w.getChunk (w.worldToChunkCoords x y z).chunk.x
        (w.worldToChunkCoords x y z).chunk.z = some ch →
      ops.loaded ch.data = true →
      WorldState.getBlock ops w x y z
        = ops.getBlock ch.data (w.worldToChunkCoords x y z).block.x
            (w.worldToChunkCoords x y z).block.y
            (w.worldToChunkCoords x y z).block.z) := by
  refine ⟨fun h => ?_, fun ch hc hl => ?_, fun ch hc hl => ?_⟩
  · simp only [WorldState.getBlock, h]
  · simp only [WorldState.getBlock, hc, hl]
    simp
  · simp only [WorldState.getBlock, hc, hl]
    simp

/-- A trivial chunk implementation used to exercise the `World`-level
theorems on concrete inputs. -/
def toyOps : ChunkOps Unit Unit where
  addBlock _ _ _ _ _ := ()
  removeBlock _ _ _ _ := ()
  addBlockInstance _ _ _ _ := ()
  deleteBlockInstance _ _ _ _ := ()
  isBlockObscured _ _ _ _ := true
  getBlock _ _ _ _ := some ()
  loaded _ := true

/-- An empty world (no loaded chunks). -/
def toyWorld : WorldState Unit := ⟨2, 32, []⟩

/-- A world holding one chunk at chunk coordinate `(0, 0)`. -/
def toyWorld2 : WorldState Unit := ⟨2, 32, [⟨0, 0, ()⟩]⟩

theorem addRemoveBlock_neighbor_fixup_witness :
    WorldState.addBlock toyOps toyWorld 5 6 7 3 = toyWorld ∧
    WorldState.removeBlock toyOps toyWorld 5 6 7 = toyWorld :=
  (addRemoveBlock_neighbor_fixup toyOps toyWorld 5 6 7 3).1 rfl

theorem getBlock_absent_or_delegates_witness :
    WorldState.getBlock toyOps toyWorld2 0 6 0 = some () :=
  (getBlock_absent_or_delegates toyOps toyWorld2 0 6 0).2.2 ⟨0, 0, ()⟩
    (by simp [toyWorld2, WorldState.getChunk, WorldState.worldToChunkCoords,
      List.find?]) rfl

end World

namespace Physics

/-- `simulationRate = 250` (Hz). -/
def simulationRate : ℚ := 250

/-- `stepSize = 1 / simulationRate`. -/
def stepSize : ℚ := 1 / simulationRate

/-- The state the accumulator loop threads: the leftover-time accumulator and
the player state.  One whole simulation step (gravity, input integration,
collision detection and resolution against a fixed world — a deterministic
transformation of the player state) is abstracted as a function `step`. -/
structure PhysicsState (P : Type) where
  accumulator : ℚ
  player : P
deriving DecidableEq

/-- The `while (accumulator >= stepSize)` loop body of `Physics.update`:
each iteration runs one whole simulation step and subtracts exactly
`stepSize`. -/
def loop {P : Type} (step : P → P) (acc : ℚ) (p : P) : ℚ × P :=
  if h : stepSize ≤ acc then loop step (acc - stepSize) (step p) else (acc, p)
termination_by ⌊acc * 250⌋.toNat
decreasing_by
  have hs : (1 : ℚ) / 250 ≤ acc := by
    simpa [stepSize, simulationRate] using h
  have h1 : (1 : ℚ) ≤ acc * 250 := by linarith
  have h2 : ((acc - stepSize) * 250 : ℚ) = acc * 250 - 1 := by
    simp only [stepSize, simulationRate]
    ring
  have h3 : ⌊acc * 250 - ((1 : ℤ) : ℚ)⌋ = ⌊acc * 250⌋ - 1 := Int.floor_sub_int _ 1
  have h4 : (1 : ℤ) ≤ ⌊acc * 250⌋ := Int.le_floor.mpr (by exact_mod_cast h1)
  have h5 : ⌊(acc - stepSize) * 250⌋ = ⌊acc * 250⌋ - 1 := by
    rw [h2, ← h3]
    norm_num
  simp only [h5]
  omega

/-- `Physics.update(dt, player, world)`: add `dt` to the accumulator, then run
whole simulation steps while `accumulator ≥ stepSize`, subtracting `stepSize`
for each. -/
def update {P : Type} (step : P → P) (dt : ℚ) (st : PhysicsState P) :
    PhysicsState P :=
  let r := loop step (st.accumulator + dt) st.player
  ⟨r.1, r.2⟩

theorem loop_eq {P : Type} (step : P → P) :
    ∀ (n : ℕ) (acc : ℚ) (p : P), 0 ≤ acc → ⌊acc * 250⌋.toNat = n →
      loop step acc p = (acc - n * stepSize, step^[n] p) := by
  intro n
  induction n with
  | zero =>
      intro acc p hnn hfl
      have h1 : ⌊acc * 250⌋ ≤ 0 := by omega
      have h2 : acc * 250 < 1 := by
        have := Int.lt_floor_add_one (acc * 250)
        have : (⌊acc * 250⌋ : ℚ) ≤ 0 := by exact_mod_cast h1
        nlinarith [Int.lt_floor_add_one (acc * 250)]
      have h3 : ¬ stepSize ≤ acc := by
        simp only [stepSize, simulationRate]
        intro hcon
        nlinarith
      rw [loop, dif_neg h3]
      simp
  | succ n ih =>
      intro acc p hnn hfl
      have h1 : (1 : ℤ) ≤ ⌊acc * 250⌋ := by omega
      have h2 : (1 : ℚ) ≤ acc * 250 := by
        exact_mod_cast Int.le_floor.mp h1
      have hstep : stepSize ≤ acc := by
        simp only [stepSize, simulationRate]
        nlinarith
      rw [loop, dif_pos hstep]
      have hsub : ((acc - stepSize) * 250 : ℚ) = acc * 250 - 1 := by
        simp only [stepSize, simulationRate]
        ring
      have hfl' : ⌊(acc - stepSize) * 250⌋.toNat = n := by
        have h3 : ⌊acc * 250 - ((1 : ℤ) : ℚ)⌋ = ⌊acc * 250⌋ - 1 :=
          Int.floor_sub_int _ 1
        have h4 : ⌊(acc - stepSize) * 250⌋ = ⌊acc * 250⌋ - 1 := by
          rw [hsub, ← h3]
          norm_num
        omega
      have hnn' : 0 ≤ acc - stepSize := by linarith
      rw [ih (acc - stepSize) (step p) hnn' hfl']
      refine congrArg₂ Prod.mk ?_ ?_
      · push_cast
        ring
      · exact (Function.iterate_succ_apply step n p).symm

theorem update_eq {P : Type} (step : P → P) (dt : ℚ) (st : PhysicsState P)
    (h : 0 ≤ st.accumulator + dt) :
    update step dt st
      = ⟨(st.accumulator + dt)
            - ⌊(st.accumulator + dt) * 250⌋.toNat * stepSize,
         step^[⌊(st.accumulator + dt) * 250⌋.toNat] st.player⟩ := by
  unfold update
  rw [loop_eq step _ _ _ h rfl]

/-- For nonnegative `x`, subtracting `⌊x * 250⌋` whole steps leaves a
remainder in `[0, stepSize)`. -/
theorem fract_bounds (x : ℚ) (h : 0 ≤ x) :
    0 ≤ x - ⌊x * 250⌋.toNat * stepSize ∧
      x - ⌊x * 250⌋.toNat * stepSize < stepSize := by
  have hnn : (0 : ℤ) ≤ ⌊x * 250⌋ := Int.floor_nonneg.mpr (by positivity)
  have hc : ((⌊x * 250⌋.toNat : ℕ) : ℚ) = ((⌊x * 250⌋ : ℤ) : ℚ) := by
    exact_mod_cast congrArg (fun i : ℤ => (i : ℚ)) (Int.toNat_of_nonneg hnn)
  have hle : ((⌊x * 250⌋ : ℤ) : ℚ) ≤ x * 250 := Int.floor_le _
  have hlt : x * 250 < ((⌊x * 250⌋ : ℤ) : ℚ) + 1 := Int.lt_floor_add_one _
  rw [hc]
  simp only [stepSize, simulationRate]
  constructor <;> nlinarith

/-- C10: if `0 ≤ accumulator < stepSize` holds before `Physics.update(dt)`
with `dt ≥ 0`, it also holds when the call returns: the while loop drains the
accumulator to a nonnegative remainder strictly below one step. -/
theorem update_accumulator_invariant {P : Type} (step : P → P) (dt : ℚ)
    (st : PhysicsState P) (h0 : 0 ≤ st.accumulator)
    (h1 : st.accumulator < stepSize) (hdt : 0 ≤ dt) :
    0 ≤ (update step dt st).accumulator ∧
      (update step dt st).accumulator < stepSize := by
  have hacc : 0 ≤ st.accumulator + dt := by linarith
  rw [update_eq step dt st hacc]
  exact fract_bounds (st.accumulator + dt) hacc

theorem update_accumulator_invariant_witness :
    0 ≤ (update Nat.succ (1 / 100) ⟨0, 0⟩).accumulator ∧
      (update Nat.succ (1 / 100) ⟨0, 0⟩).accumulator < stepSize :=
  update_accumulator_invariant Nat.succ (1 / 100) ⟨0, 0⟩ le_rfl
    (by norm_num [stepSize, simulationRate]) (by norm_num)

theorem foldl_update_eq {P : Type} (step : P → P) :
    ∀ (l : List ℚ) (a : ℚ) (p : P), 0 ≤ a → a < stepSize →
      (∀ d ∈ l, 0 ≤ d) →
      l.foldl (fun st d => update step d st) ⟨a, p⟩
        = ⟨(a + l.sum) - ⌊(a + l.sum) * 250⌋.toNat * stepSize,
           step^[⌊(a + l.sum) * 250⌋.toNat] p⟩ := by
  intro l
  induction l with
  | nil =>
      intro a p h0 h1 _
      have hfl : ⌊a * 250⌋ = 0 := by
        rw [Int.floor_eq_zero_iff]
        constructor
        · positivity
        · have : a < 1 / 250 := by
            simpa [stepSize, simulationRate] using h1
          nlinarith
      simp [hfl]
  | cons d rest ih =>
      intro a p h0 h1 hpos
      have hd : 0 ≤ d := hpos d (List.mem_cons_self d rest)
      have hrest : ∀ e ∈ rest, 0 ≤ e := fun e he => hpos e (List.mem_cons_of_mem d he)
      have hsumr : 0 ≤ rest.sum := List.sum_nonneg hrest
      have hx : 0 ≤ a + d := by linarith
      rw [List.foldl_cons,
        show update step d ⟨a, p⟩
            = ⟨(a + d) - ⌊(a + d) * 250⌋.toNat * stepSize,
               step^[⌊(a + d) * 250⌋.toNat] p⟩ from update_eq step d ⟨a, p⟩ hx]
      obtain ⟨ha'0, ha'1⟩ := fract_bounds (a + d) hx
      rw [ih _ _ ha'0 ha'1 hrest]
      have hm : (0 : ℤ) ≤ ⌊(a + d) * 250⌋ := Int.floor_nonneg.mpr (by positivity)
      have hmc : ((⌊(a + d) * 250⌋.toNat : ℕ) : ℚ) = ((⌊(a + d) * 250⌋ : ℤ) : ℚ) := by
        exact_mod_cast congrArg (fun i : ℤ => (i : ℚ)) (Int.toNat_of_nonneg hm)
      have hrw : ((a + d) - ⌊(a + d) * 250⌋.toNat * stepSize + rest.sum) * 250
          = (a + (d + rest.sum)) * 250 - ((⌊(a + d) * 250⌋ : ℤ) : ℚ) := by
        rw [hmc]
        simp only [stepSize, simulationRate]
        ring
      have hfl2 : ⌊((a + d) - ⌊(a + d) * 250⌋.toNat * stepSize + rest.sum) * 250⌋
          = ⌊(a + (d + rest.sum)) * 250⌋ - ⌊(a + d) * 250⌋ := by
        rw [hrw]
        exact Int.floor_sub_int _ _
      have hmono : ⌊(a + d) * 250⌋ ≤ ⌊(a + (d + rest.sum)) * 250⌋ := by
        apply Int.floor_le_floor
        nlinarith
      refine congrArg₂ PhysicsState.mk ?_ ?_
      · have h2 : (⌊((a + d) - ⌊(a + d) * 250⌋.toNat * stepSize + rest.sum) * 250⌋.toNat : ℤ)
            = ⌊(a + (d + rest.sum)) * 250⌋ - ⌊(a + d) * 250⌋ := by
          rw [hfl2]
          omega
        have h3 : ((⌊((a + d) - ⌊(a + d) * 250⌋.toNat * stepSize + rest.sum) * 250⌋.toNat : ℕ) : ℚ)
            = ((⌊(a + (d + rest.sum)) * 250⌋ : ℤ) : ℚ) - ((⌊(a + d) * 250⌋ : ℤ) : ℚ) := by
          exact_mod_cast congrArg (fun i : ℤ => (i : ℚ)) h2
        have hm2 : (0 : ℤ) ≤ ⌊(a + (d + rest.sum)) * 250⌋ := by
          apply Int.floor_nonneg.mpr
          nlinarith
        have hmc2 : ((⌊(a + (d + rest.sum)) * 250⌋.toNat : ℕ) : ℚ)
            = ((⌊(a + (d + rest.sum)) * 250⌋ : ℤ) : ℚ) := by
          exact_mod_cast congrArg (fun i : ℤ => (i : ℚ)) (Int.toNat_of_nonneg hm2)
        rw [List.sum_cons, h3, hmc2, hmc]
        ring
      · have h2 : ⌊((a + d) - ⌊(a + d) * 250⌋.toNat * stepSize + rest.sum) * 250⌋.toNat
              + ⌊(a + d) * 250⌋.toNat
            = ⌊(a + (d + rest.sum)) * 250⌋.toNat := by
          have hm2 : (0 : ℤ) ≤ ⌊(a + (d + rest.sum)) * 250⌋ := by
            apply Int.floor_nonneg.mpr
            nlinarith
          omega
        rw [List.sum_cons, ← h2, Function.iterate_add_apply]

/-- C3: `Physics.update(dt)` adds `dt` to the accumulator and runs whole
steps while `accumulator ≥ stepSize`, each subtracting exactly `stepSize`;
consequently, delivering a total of `k * stepSize` over any sequence of
nonnegative `dt`s, starting from a fresh accumulator, runs exactly `k`
physics steps (the player ends at `step^[k]` for an arbitrary deterministic
step function) and leaves the same end state for every split. -/
theorem update_fixed_step_determinism {P : Type} (step : P → P) (p : P)
    (l : List ℚ) (k : ℕ) (hpos : ∀ d ∈ l, 0 ≤ d)
    (hsum : l.sum = k * stepSize) :
    l.foldl (fun st d => update step d st) ⟨0, p⟩ = ⟨0, step^[k] p⟩ := by
  have h1 : (0 : ℚ) < stepSize := by norm_num [stepSize, simulationRate]
  rw [foldl_update_eq step l 0 p le_rfl h1 hpos]
  have h2 : ((0 + l.sum) * 250 : ℚ) = (k : ℚ) := by
    rw [hsum]
    simp [stepSize, simulationRate]
  have h3 : ⌊((0 : ℚ) + l.sum) * 250⌋.toNat = k := by
    rw [h2]
    simp
  rw [h3]
  refine congrArg₂ PhysicsState.mk ?_ rfl
  rw [zero_add, hsum]
  ring

theorem update_fixed_step_determinism_witness :
    List.foldl (fun st d => update Nat.succ d st) ⟨0, 0⟩
        [1 / 500, 1 / 500, 1 / 250] = ⟨0, 2⟩ := by
  have h := update_fixed_step_determinism Nat.succ 0 [1 / 500, 1 / 500, 1 / 250] 2
    (by
      intro d hd
      simp only [List.mem_cons, List.not_mem_nil, or_false] at hd
      rcases hd with rfl | rfl | rfl <;> norm_num)
    (by norm_num [stepSize, simulationRate])
  simpa using h

open Classical

/-- A 3-component vector (`THREE.Vector3`); parametric so the collision-record
sorting can also be exercised on computable rational inputs. -/
structure Vec3 (α : Type) where
  x : α
  y : α
  z : α
deriving DecidableEq

noncomputable def Vec3.add (v w : Vec3 ℝ) : Vec3 ℝ := ⟨v.x + w.x, v.y + w.y, v.z + w.z⟩

noncomputable def Vec3.smul (c : ℝ) (v : Vec3 ℝ) : Vec3 ℝ := ⟨c * v.x, c * v.y, c * v.z⟩

noncomputable def Vec3.dot (v w : Vec3 ℝ) : ℝ := v.x * w.x + v.y * w.y + v.z * w.z

/-- `THREE.Vector3.normalize`: `divideScalar(length() || 1)` — the zero vector
is left unchanged. -/
noncomputable def Vec3.normalize (v : Vec3 ℝ) : Vec3 ℝ :=
  let len := Real.sqrt (v.x * v.x + v.y * v.y + v.z * v.z)
  if len = 0 then v else ⟨v.x / len, v.y / len, v.z / len⟩

/-- Rotation about the world Y axis by `theta` (`applyEuler` with a pure yaw
Euler angle). -/
noncomputable def rotateY (theta : ℝ) (v : Vec3 ℝ) : Vec3 ℝ :=
  ⟨Real.cos theta * v.x + Real.sin theta * v.z, v.y,
   -Real.sin theta * v.x + Real.cos theta * v.z⟩

/-- The player state the collision pipeline reads and writes: position,
velocity (in the camera-local frame), camera yaw, the `onGround` flag and the
bounding-cylinder `radius` (0.5 in the source) and `height` (1.75). -/
structure PlayerState where
  position : Vec3 ℝ
  velocity : Vec3 ℝ
  yaw : ℝ
  onGround : Bool
  radius : ℝ
  height : ℝ

/-- `Player.worldVelocity`: the local velocity rotated into the world frame by
the camera yaw. -/
noncomputable def worldVelocity (p : PlayerState) : Vec3 ℝ :=
  rotateY p.yaw p.velocity

/-- `Player.applyWorldDeltaVelocity(dv)`: rotate `dv` back into the local
frame and add it to the velocity. -/
noncomputable def applyWorldDeltaVelocity (p : PlayerState) (dv : Vec3 ℝ) :
    PlayerState :=
  { p with velocity := p.velocity.add (rotateY (-p.yaw) dv) }

/-- A collision record: contacted block, contact point, outward normal and
penetration depth. -/
structure Collision (α : Type) where
  block : ℤ × ℤ × ℤ
  contactPoint : Vec3 α
  normal : Vec3 α
  overlap : α
deriving DecidableEq

/-- The point of the unit cube centred at `block` closest to the centre of
the player's bounding cylinder (per-axis clamp). -/
noncomputable def closestPoint (b : ℤ × ℤ × ℤ) (p : PlayerState) : Vec3 ℝ :=
  ⟨max ((b.1 : ℝ) - 1 / 2) (min p.position.x ((b.1 : ℝ) + 1 / 2)),
   max ((b.2.1 : ℝ) - 1 / 2)
     (min (p.position.y - p.height / 2) ((b.2.1 : ℝ) + 1 / 2)),
   max ((b.2.2 : ℝ) - 1 / 2) (min p.position.z ((b.2.2 : ℝ) + 1 / 2))⟩

/-- The per-axis offsets `(dx, dy, dz)` from the cylinder centre to the
closest point. -/
noncomputable def contactDelta (b : ℤ × ℤ × ℤ) (p : PlayerState) : Vec3 ℝ :=
  ⟨(closestPoint b p).x - p.position.x,
   (closestPoint b p).y - (p.position.y - p.height / 2),
   (closestPoint b p).z - p.position.z⟩

/-- `Physics.pointInPlayerBoundingCylinder(p, player)`:
`|dy| < height/2 && dx*dx + dz*dz < radius*radius`. -/
def pointInPlayerBoundingCylinder (pt : Vec3 ℝ) (p : PlayerState) : Prop :=
  |pt.y - (p.position.y - p.height / 2)| < p.height / 2 ∧
    (pt.x - p.position.x) * (pt.x - p.position.x) +
        (pt.z - p.position.z) * (pt.z - p.position.z)
      < p.radius * p.radius

/-- `overlapY = height/2 - |dy|`. -/
noncomputable def overlapY (b : ℤ × ℤ × ℤ) (p : PlayerState) : ℝ :=
  p.height / 2 - |(contactDelta b p).y|

/-- `overlapXZ = radius - sqrt(dx*dx + dz*dz)`. -/
noncomputable def overlapXZ (b : ℤ × ℤ × ℤ) (p : PlayerState) : ℝ :=
  p.radius - Real.sqrt ((contactDelta b p).x * (contactDelta b p).x +
    (contactDelta b p).z * (contactDelta b p).z)

/-- One iteration of the `Physics.narrowPhase` candidate loop: if the closest
point is inside the bounding cylinder, classify the contact as vertical
(`overlapY < overlapXZ`, normal `(0, -sign dy, 0)`, sets `onGround`) or
horizontal (normal `normalize(-dx, 0, -dz)`), and push a collision record. -/
noncomputable def narrowPhaseStep (acc : List (Collision ℝ) × PlayerState)
    (block : ℤ × ℤ × ℤ) : List (Collision ℝ) × PlayerState :=
  let p := acc.2
  if pointInPlayerBoundingCylinder (closestPoint block p) p then
    if overlapY block p < overlapXZ block p then
      (acc.1 ++ [⟨block, closestPoint block p,
          ⟨0, -Real.sign (contactDelta block p).y, 0⟩, overlapY block p⟩],
       { p with onGround := true })
    else
      (acc.1 ++ [⟨block, closestPoint block p,
          Vec3.normalize ⟨-(contactDelta block p).x, 0, -(contactDelta block p).z⟩,
          overlapXZ block p⟩], p)
  else acc

/-- `Physics.narrowPhase(candidates, player)`: fold the candidate loop,
threading the collision list and the player's `onGround` flag. -/
noncomputable def narrowPhase (candidates : List (ℤ × ℤ × ℤ)) (p : PlayerState) :
    List (Collision ℝ) × PlayerState :=
  candidates.foldl narrowPhaseStep ([], p)

/-- The `collisions.sort((a, b) => a.overlap < b.overlap)` call.  The JS
comparator returns a boolean, which `Array.prototype.sort` coerces to `1`
(meaning `a` is placed after `b`) or `0` (order kept); a stable sort driven by
it therefore orders records by descending overlap.  Modelled as a stable
insertion sort with the induced total preorder. -/
def sortCollisions {α : Type} [LinearOrder α] (l : List (Collision α)) :
    List (Collision α) :=
  List.insertionSort (fun a b => b.overlap ≤ a.overlap) l

/-- One iteration of the `Physics.resolveCollisions` loop: skip if the contact
point is no longer inside the (possibly already corrected) cylinder, otherwise
translate the player by `normal * overlap` and remove the velocity component
along the normal. -/
noncomputable def resolveCollision (p : PlayerState) (col : Collision ℝ) :
    PlayerState :=
  if pointInPlayerBoundingCylinder col.contactPoint p then
    let p1 := { p with position := p.position.add (Vec3.smul col.overlap col.normal) }
    let magnitude := Vec3.dot (worldVelocity p1) col.normal
    applyWorldDeltaVelocity p1 (Vec3.smul (-1) (Vec3.smul magnitude col.normal))
  else p

/-- `Physics.resolveCollisions(collisions, player)`: sort, then resolve in
order. -/
noncomputable def resolveCollisions (collisions : List (Collision ℝ))
    (p : PlayerState) : PlayerState :=
  (sortCollisions collisions).foldl resolveCollision p

/-- Modelled from the spec: block type identifiers are an integer enum and
`blocks.empty.id` is a parameter (`blocks.js` is not among the provided
sources).  `blockId && blockId !== blocks.empty.id` — a JS-falsy id of `0` is
also rejected. -/
def blockNonEmpty (emptyId : ℕ) (o : Option ℕ) : Bool :=
  match o with
  | some i => !(i == 0) && !(i == emptyId)
  | none => false

/-- `Physics.broadPhase(player, world)`: enumerate every integer voxel inside
the floor/ceil extents of the player's bounding box and keep the non-empty
ones. -/
noncomputable def broadPhase (wGet : ℤ → ℤ → ℤ → Option ℕ) (emptyId : ℕ)
    (p : PlayerState) : List (ℤ × ℤ × ℤ) :=
  let xmin := ⌊p.position.x - p.radius⌋
  let xmax := ⌈p.position.x + p.radius⌉
  let ymin := ⌊p.position.y - p.height⌋
  let ymax := ⌈p.position.y⌉
  let zmin := ⌊p.position.z - p.radius⌋
  let zmax := ⌈p.position.z + p.radius⌉
  ((intRange xmin xmax).flatMap (fun x =>
    (intRange ymin ymax).flatMap (fun y =>
      (intRange zmin zmax).map (fun z => (x, y, z))))).filter
    (fun t => blockNonEmpty emptyId (wGet t.1 t.2.1 t.2.2))

/-- C7: the broad phase is a sound over-approximation — every block that is
non-empty in the world and whose closest point to the player's
bounding-cylinder centre passes the narrow-phase containment test lies inside
the floor/ceil extents enumerated by `broadPhase`, hence appears in the
candidate list. -/
theorem broadPhase_sound (wGet : ℤ → ℤ → ℤ → Option ℕ) (emptyId : ℕ)
    (p : PlayerState) (b : ℤ × ℤ × ℤ) (hr : 0 ≤ p.radius)
    (hblock : blockNonEmpty emptyId (wGet b.1 b.2.1 b.2.2) = true)
    (hin : pointInPlayerBoundingCylinder (closestPoint b p) p) :
    b ∈ broadPhase wGet emptyId p := by
  obtain ⟨b1, b2, b3⟩ := b
  obtain ⟨hdy, hsq⟩ := hin
  rw [abs_lt] at hdy
  simp only [closestPoint] at hdy hsq
  have hcx1 : (b1 : ℝ) - 1 / 2
      ≤ max ((b1 : ℝ) - 1 / 2) (min p.position.x ((b1 : ℝ) + 1 / 2)) :=
    le_max_left _ _
  have hcx2 : max ((b1 : ℝ) - 1 / 2) (min p.position.x ((b1 : ℝ) + 1 / 2))
      ≤ (b1 : ℝ) + 1 / 2 :=
    max_le (by linarith) (min_le_right _ _)
  have hcy1 : (b2 : ℝ) - 1 / 2
      ≤ max ((b2 : ℝ) - 1 / 2)
          (min (p.position.y - p.height / 2) ((b2 : ℝ) + 1 / 2)) :=
    le_max_left _ _
  have hcy2 : max ((b2 : ℝ) - 1 / 2)
        (min (p.position.y - p.height / 2) ((b2 : ℝ) + 1 / 2))
      ≤ (b2 : ℝ) + 1 / 2 :=
    max_le (by linarith) (min_le_right _ _)
  have hcz1 : (b3 : ℝ) - 1 / 2
      ≤ max ((b3 : ℝ) - 1 / 2) (min p.position.z ((b3 : ℝ) + 1 / 2)) :=
    le_max_left _ _
  have hcz2 : max ((b3 : ℝ) - 1 / 2) (min p.position.z ((b3 : ℝ) + 1 / 2))
      ≤ (b3 : ℝ) + 1 / 2 :=
    max_le (by linarith) (min_le_right _ _)
  set cx := max ((b1 : ℝ) - 1 / 2) (min p.position.x ((b1 : ℝ) + 1 / 2)) with hcxdef
  set cy := max ((b2 : ℝ) - 1 / 2)
    (min (p.position.y - p.height / 2) ((b2 : ℝ) + 1 / 2)) with hcydef
  set cz := max ((b3 : ℝ) - 1 / 2) (min p.position.z ((b3 : ℝ) + 1 / 2)) with hczdef
  have hdx1 : cx - p.position.x < p.radius := by
    nlinarith [mul_self_nonneg (cz - p.position.z), mul_self_nonneg (cx - p.position.x)]
  have hdx2 : -p.radius < cx - p.position.x := by
    nlinarith [mul_self_nonneg (cz - p.position.z), mul_self_nonneg (cx - p.position.x)]
  have hdz1 : cz - p.position.z < p.radius := by
    nlinarith [mul_self_nonneg (cx - p.position.x), mul_self_nonneg (cz - p.position.z)]
  have hdz2 : -p.radius < cz - p.position.z := by
    nlinarith [mul_self_nonneg (cx - p.position.x), mul_self_nonneg (cz - p.position.z)]
  have hx1 : ⌊p.position.x - p.radius⌋ ≤ b1 := by
    have h1 : p.position.x - p.radius < ((b1 + 1 : ℤ) : ℝ) := by
      push_cast
      linarith
    have := Int.floor_lt.mpr h1
    omega
  have hx2 : b1 ≤ ⌈p.position.x + p.radius⌉ := by
    have h1 : ((b1 - 1 : ℤ) : ℝ) < p.position.x + p.radius := by
      push_cast
      linarith
    have := Int.lt_ceil.mpr h1
    omega
  have hy1 : ⌊p.position.y - p.height⌋ ≤ b2 := by
    have h1 : p.position.y - p.height < ((b2 + 1 : ℤ) : ℝ) := by
      push_cast
      linarith
    have := Int.floor_lt.mpr h1
    omega
  have hy2 : b2 ≤ ⌈p.position.y⌉ := by
    have h1 : ((b2 - 1 : ℤ) : ℝ) < p.position.y := by
      push_cast
      linarith
    have := Int.lt_ceil.mpr h1
    omega
  have hz1 : ⌊p.position.z - p.radius⌋ ≤ b3 := by
    have h1 : p.position.z - p.radius < ((b3 + 1 : ℤ) : ℝ) := by
      push_cast
      linarith
    have := Int.floor_lt.mpr h1
    omega
  have hz2 : b3 ≤ ⌈p.position.z + p.radius⌉ := by
    have h1 : ((b3 - 1 : ℤ) : ℝ) < p.position.z + p.radius := by
      push_cast
      linarith
    have := Int.lt_ceil.mpr h1
    omega
  simp only [broadPhase]
  refine List.mem_filter.mpr ⟨?_, hblock⟩
  refine List.mem_flatMap.mpr ⟨b1, mem_intRange.mpr ⟨hx1, hx2⟩, ?_⟩
  refine List.mem_flatMap.mpr ⟨b2, mem_intRange.mpr ⟨hy1, hy2⟩, ?_⟩
  exact List.mem_map.mpr ⟨b3, mem_intRange.mpr ⟨hz1, hz2⟩, rfl⟩

/-- A one-block world: a single stone-like block (id 1) at the origin. -/
def oneBlockWorld : ℤ → ℤ → ℤ → Option ℕ := fun x y z =>
  if x = 0 ∧ y = 0 ∧ z = 0 then some 1 else none

/-- A concrete player standing just above the origin block. -/
noncomputable def playerAboveOrigin : PlayerState :=
  ⟨⟨0, 3 / 2, 0⟩, ⟨0, 0, 0⟩, 0, false, 1 / 2, 7 / 4⟩

theorem broadPhase_sound_witness :
    ((0 : ℤ), (0 : ℤ), (0 : ℤ)) ∈ broadPhase oneBlockWorld 0 playerAboveOrigin :=
  broadPhase_sound oneBlockWorld 0 playerAboveOrigin (0, 0, 0)
    (by norm_num [playerAboveOrigin])
    (by norm_num [oneBlockWorld, blockNonEmpty])
    (by
      constructor <;>
        norm_num [closestPoint, playerAboveOrigin, min_def, max_def, abs_lt])

theorem closestPoint_congr (b : ℤ × ℤ × ℤ) (p q : PlayerState)
    (hpos : p.position = q.position) (hh : p.height = q.height) :
    closestPoint b p = closestPoint b q := by
  unfold closestPoint
  rw [hpos, hh]

theorem contactDelta_congr (b : ℤ × ℤ × ℤ) (p q : PlayerState)
    (hpos : p.position = q.position) (hh : p.height = q.height) :
    contactDelta b p = contactDelta b q := by
  unfold contactDelta
  rw [closestPoint_congr b p q hpos hh, hpos, hh]

theorem pointIn_congr (pt : Vec3 ℝ) (p q : PlayerState)
    (hpos : p.position = q.position) (hh : p.height = q.height)
    (hrad : p.radius = q.radius) :
    pointInPlayerBoundingCylinder pt p ↔ pointInPlayerBoundingCylinder pt q := by
  unfold pointInPlayerBoundingCylinder
  rw [hpos, hh, hrad]

theorem overlapY_congr (b : ℤ × ℤ × ℤ) (p q : PlayerState)
    (hpos : p.position = q.position) (hh : p.height = q.height) :
    overlapY b p = overlapY b q := by
  unfold overlapY
  rw [contactDelta_congr b p q hpos hh, hh]

theorem overlapXZ_congr (b : ℤ × ℤ × ℤ) (p q : PlayerState)
    (hpos : p.position = q.position) (hh : p.height = q.height)
    (hrad : p.radius = q.radius) :
    overlapXZ b p = overlapXZ b q := by
  unfold overlapXZ
  rw [contactDelta_congr b p q hpos hh, hrad]

theorem narrowPhaseStep_fields (acc : List (Collision ℝ) × PlayerState)
    (blk : ℤ × ℤ × ℤ) :
    (narrowPhaseStep acc blk).2.position = acc.2.position ∧
    (narrowPhaseStep acc blk).2.radius = acc.2.radius ∧
    (narrowPhaseStep acc blk).2.height = acc.2.height := by
  unfold narrowPhaseStep
  dsimp only
  split_ifs <;> simp

theorem narrowPhaseStep_onGround_mono (acc : List (Collision ℝ) × PlayerState)
    (blk : ℤ × ℤ × ℤ) (h : acc.2.onGround = true) :
    (narrowPhaseStep acc blk).2.onGround = true := by
  unfold narrowPhaseStep
  dsimp only
  split_ifs <;> simp [h]

theorem narrowPhaseStep_vertical_triggers (acc : List (Collision ℝ) × PlayerState)
    (blk : ℤ × ℤ × ℤ)
    (hin : pointInPlayerBoundingCylinder (closestPoint blk acc.2) acc.2)
    (hvert : overlapY blk acc.2 < overlapXZ blk acc.2) :
    (narrowPhaseStep acc blk).2.onGround = true := by
  unfold narrowPhaseStep
  dsimp only
  rw [if_pos hin, if_pos hvert]

theorem foldl_narrowPhaseStep_onGround_mono (l : List (ℤ × ℤ × ℤ))
    (acc : List (Collision ℝ) × PlayerState) (h : acc.2.onGround = true) :
    (l.foldl narrowPhaseStep acc).2.onGround = true := by
  induction l generalizing acc with
  | nil => exact h
  | cons hd tl ih => exact ih _ (narrowPhaseStep_onGround_mono _ _ h)

theorem foldl_narrow_sets_onGround (p : PlayerState) :
    ∀ (l : List (ℤ × ℤ × ℤ)) (acc : List (Collision ℝ) × PlayerState)
      (b : ℤ × ℤ × ℤ),
      acc.2.position = p.position → acc.2.radius = p.radius →
      acc.2.height = p.height → b ∈ l →
      pointInPlayerBoundingCylinder (closestPoint b p) p →
      overlapY b p < overlapXZ b p →
      (l.foldl narrowPhaseStep acc).2.onGround = true := by
  intro l
  induction l with
  | nil =>
      intro acc b _ _ _ hmem
      exact absurd hmem (List.not_mem_nil b)
  | cons hd tl ih =>
      intro acc b hpos hrad hh hmem hin hvert
      rcases List.mem_cons.mp hmem with rfl | hmem'
      · rw [List.foldl_cons]
        apply foldl_narrowPhaseStep_onGround_mono
        apply narrowPhaseStep_vertical_triggers
        · rw [closestPoint_congr b acc.2 p hpos hh,
            pointIn_congr _ acc.2 p hpos hh hrad]
          exact hin
        · rw [overlapY_congr b acc.2 p hpos hh,
            overlapXZ_congr b acc.2 p hpos hh hrad]
          exact hvert
      · rw [List.foldl_cons]
        obtain ⟨h1, h2, h3⟩ := narrowPhaseStep_fields acc hd
        exact ih (narrowPhaseStep acc hd) b (h1.trans hpos) (h2.trans hrad)
          (h3.trans hh) hmem' hin hvert

/-- C4 (amended): whenever the narrow phase classifies a contact as vertical
(`overlapY < overlapXZ`), the player's `onGround` flag is set — regardless of
the direction of the collision normal; ceiling contacts (dy > 0, normal
pointing down) set it just like floor contacts.  (The original claim, that
only an upward normal sets `onGround`, is refuted by
`narrow_ceiling_sets_onGround_counterexample`.) -/
theorem narrow_vertical_contact_sets_onGround (cands : List (ℤ × ℤ × ℤ))
    (p : PlayerState) (b : ℤ × ℤ × ℤ) (hmem : b ∈ cands)
    (hin : pointInPlayerBoundingCylinder (closestPoint b p) p)
    (hvert : overlapY b p < overlapXZ b p) :
    (narrowPhase cands p).2.onGround = true :=
  foldl_narrow_sets_onGround p cands ([], p) b rfl rfl rfl hmem hin hvert

/-- A concrete player whose bounding cylinder pokes into the block above it
(a ceiling contact). -/
noncomputable def playerUnderCeiling : PlayerState :=
  ⟨⟨0, 3 / 5, 0⟩, ⟨0, 0, 0⟩, 0, false, 1 / 2, 7 / 4⟩

/-- A concrete player standing with its feet overlapping the origin block
(a floor contact). -/
noncomputable def playerOnFloor : PlayerState :=
  ⟨⟨0, 15 / 8, 0⟩, ⟨0, 0, 0⟩, 0, false, 1 / 2, 7 / 4⟩

theorem playerOnFloor_delta :
    contactDelta ((0 : ℤ), (0 : ℤ), (0 : ℤ)) playerOnFloor = ⟨0, -(1 / 2), 0⟩ := by
  norm_num [contactDelta, closestPoint, playerOnFloor, min_def, max_def]

theorem playerOnFloor_in :
    pointInPlayerBoundingCylinder
      (closestPoint ((0 : ℤ), (0 : ℤ), (0 : ℤ)) playerOnFloor) playerOnFloor := by
  norm_num [pointInPlayerBoundingCylinder, closestPoint, playerOnFloor,
    min_def, max_def, abs_lt]

theorem playerOnFloor_vert :
    overlapY ((0 : ℤ), (0 : ℤ), (0 : ℤ)) playerOnFloor
      < overlapXZ ((0 : ℤ), (0 : ℤ), (0 : ℤ)) playerOnFloor := by
  rw [overlapY, overlapXZ, playerOnFloor_delta]
  norm_num [playerOnFloor, Real.sqrt_zero, abs_of_nonpos]

theorem narrow_vertical_contact_sets_onGround_witness :
    (narrowPhase [((0 : ℤ), (0 : ℤ), (0 : ℤ))] playerOnFloor).2.onGround = true :=
  narrow_vertical_contact_sets_onGround [((0 : ℤ), (0 : ℤ), (0 : ℤ))]
    playerOnFloor ((0 : ℤ), (0 : ℤ), (0 : ℤ)) (List.mem_singleton.mpr rfl)
    playerOnFloor_in playerOnFloor_vert

theorem playerUnderCeiling_delta :
    contactDelta ((0 : ℤ), (1 : ℤ), (0 : ℤ)) playerUnderCeiling
      = ⟨0, 31 / 40, 0⟩ := by
  norm_num [contactDelta, closestPoint, playerUnderCeiling, min_def, max_def]

theorem playerUnderCeiling_in :
    pointInPlayerBoundingCylinder
      (closestPoint ((0 : ℤ), (1 : ℤ), (0 : ℤ)) playerUnderCeiling)
      playerUnderCeiling := by
  norm_num [pointInPlayerBoundingCylinder, closestPoint, playerUnderCeiling,
    min_def, max_def, abs_lt]

theorem playerUnderCeiling_vert :
    overlapY ((0 : ℤ), (1 : ℤ), (0 : ℤ)) playerUnderCeiling
      < overlapXZ ((0 : ℤ), (1 : ℤ), (0 : ℤ)) playerUnderCeiling := by
  rw [overlapY, overlapXZ, playerUnderCeiling_delta]
  norm_num [playerUnderCeiling, Real.sqrt_zero, abs_of_pos]

/-- Evaluation of `narrowPhase` on a single candidate classified as a
vertical contact. -/
theorem narrowPhase_single_vertical (b : ℤ × ℤ × ℤ) (p : PlayerState)
    (hin : pointInPlayerBoundingCylinder (closestPoint b p) p)
    (hvert : overlapY b p < overlapXZ b p) :
    narrowPhase [b] p
      = ([⟨b, closestPoint b p, ⟨0, -Real.sign (contactDelta b p).y, 0⟩,
            overlapY b p⟩],
         { p with onGround := true }) := by
  unfold narrowPhase
  rw [List.foldl_cons, List.foldl_nil]
  unfold narrowPhaseStep
  dsimp only
  rw [if_pos hin, if_pos hvert]
  simp

/-- Evaluation of `narrowPhase` on a single candidate classified as a
horizontal contact. -/
theorem narrowPhase_single_horizontal (b : ℤ × ℤ × ℤ) (p : PlayerState)
    (hin : pointInPlayerBoundingCylinder (closestPoint b p) p)
    (hvert : ¬ overlapY b p < overlapXZ b p) :
    narrowPhase [b] p
      = ([⟨b, closestPoint b p,
            Vec3.normalize ⟨-(contactDelta b p).x, 0, -(contactDelta b p).z⟩,
            overlapXZ b p⟩], p) := by
  unfold narrowPhase
  rw [List.foldl_cons, List.foldl_nil]
  unfold narrowPhaseStep
  dsimp only
  rw [if_pos hin, if_neg hvert]
  simp

/-- C4 counterexample: for a purely *ceiling* contact (`dy > 0`, so the
collision normal `(0, -sign dy, 0) = (0, -1, 0)` points down, not up) the
narrow phase still sets `onGround = true`, refuting the claim that
`onGround` is set only when the normal points up. -/
theorem narrow_ceiling_sets_onGround_counterexample :
    (0 : ℝ) < (contactDelta ((0 : ℤ), (1 : ℤ), (0 : ℤ)) playerUnderCeiling).y ∧
    (narrowPhase [((0 : ℤ), (1 : ℤ), (0 : ℤ))] playerUnderCeiling).1.map
        Collision.normal = [⟨0, -1, 0⟩] ∧
    (narrowPhase [((0 : ℤ), (1 : ℤ), (0 : ℤ))] playerUnderCeiling).2.onGround
      = true := by
  have hdy : (0 : ℝ) < (contactDelta ((0 : ℤ), (1 : ℤ), (0 : ℤ)) playerUnderCeiling).y := by
    rw [playerUnderCeiling_delta]
    norm_num
  have heval := narrowPhase_single_vertical ((0 : ℤ), (1 : ℤ), (0 : ℤ))
    playerUnderCeiling playerUnderCeiling_in playerUnderCeiling_vert
  refine ⟨hdy, ?_, ?_⟩
  · rw [heval]
    simp only [List.map_cons, List.map_nil]
    rw [Real.sign_of_pos hdy]
  · rw [heval]

/-- A collision record with the smaller overlap (generic sort exercised on
computable integer overlaps). -/
def colSmall : Collision ℤ := ⟨(0, 0, 0), ⟨0, 0, 0⟩, ⟨0, 1, 0⟩, 1⟩

/-- A collision record with the larger overlap. -/
def colLarge : Collision ℤ := ⟨(0, 0, 0), ⟨0, 0, 0⟩, ⟨0, 1, 0⟩, 2⟩

/-- C5: evaluating the resolution-order sort on records given in ascending
overlap order.  The JS comparator `(a, b) => a.overlap < b.overlap` returns a
boolean, coerced by `Array.prototype.sort` to `1` ("a after b") or `0`; the
resulting stable order is *descending* overlap — the largest penetration is
processed first, contradicting the code's own comment ("in order of the
smallest overlap to the largest") and the claimed ascending order. -/
theorem sortCollisions_reverses_ascending_pair :
    colSmall.overlap < colLarge.overlap ∧
    sortCollisions [colSmall, colLarge] = [colLarge, colSmall] := by
  constructor
  · decide
  · rfl

theorem resolveCollisions_singleton (c : Collision ℝ) (q : PlayerState) :
    resolveCollisions [c] q = resolveCollision q c := rfl

theorem resolveCollision_fields (q : PlayerState) (c : Collision ℝ)
    (h : pointInPlayerBoundingCylinder c.contactPoint q) :
    (resolveCollision q c).position
        = q.position.add (Vec3.smul c.overlap c.normal) ∧
    (resolveCollision q c).height = q.height ∧
    (resolveCollision q c).radius = q.radius := by
  unfold resolveCollision
  rw [if_pos h]
  unfold applyWorldDeltaVelocity
  exact ⟨rfl, rfl, rfl⟩

/-- A concrete player whose bounding-cylinder centre lies inside the origin
block: the closest point coincides with the cylinder axis, the narrow phase
classifies the contact as horizontal and `normalize` of the zero offset
yields the zero normal. -/
noncomputable def playerCentredOnBlock : PlayerState :=
  ⟨⟨0, 1, 0⟩, ⟨0, 0, 0⟩, 0, false, 1 / 2, 7 / 4⟩

theorem playerCentredOnBlock_cp :
    closestPoint ((0 : ℤ), (0 : ℤ), (0 : ℤ)) playerCentredOnBlock
      = ⟨0, 1 / 8, 0⟩ := by
  norm_num [closestPoint, playerCentredOnBlock, min_def, max_def]

theorem playerCentredOnBlock_delta :
    contactDelta ((0 : ℤ), (0 : ℤ), (0 : ℤ)) playerCentredOnBlock
      = ⟨0, 0, 0⟩ := by
  rw [contactDelta, playerCentredOnBlock_cp]
  norm_num [playerCentredOnBlock]

theorem playerCentredOnBlock_in :
    pointInPlayerBoundingCylinder
      (closestPoint ((0 : ℤ), (0 : ℤ), (0 : ℤ)) playerCentredOnBlock)
      playerCentredOnBlock := by
  rw [playerCentredOnBlock_cp]
  norm_num [pointInPlayerBoundingCylinder, playerCentredOnBlock, abs_lt]

theorem playerCentredOnBlock_horiz :
    ¬ overlapY ((0 : ℤ), (0 : ℤ), (0 : ℤ)) playerCentredOnBlock
      < overlapXZ ((0 : ℤ), (0 : ℤ), (0 : ℤ)) playerCentredOnBlock := by
  rw [overlapY, overlapXZ, playerCentredOnBlock_delta]
  norm_num [playerCentredOnBlock, Real.sqrt_zero]

theorem zero_vec_normalize :
    Vec3.normalize ⟨-(0 : ℝ), 0, -0⟩ = ⟨0, 0, 0⟩ := by
  unfold Vec3.normalize
  norm_num [Real.sqrt_zero]

/-- Evaluation of one narrow-phase iteration on an accumulator whose player
is `q`, for a candidate classified as a vertical contact. -/
theorem narrowPhaseStep_vertical_eval (cols : List (Collision ℝ))
    (q : PlayerState) (blk : ℤ × ℤ × ℤ)
    (hin : pointInPlayerBoundingCylinder (closestPoint blk q) q)
    (hvert : overlapY blk q < overlapXZ blk q) :
    narrowPhaseStep (cols, q) blk
      = (cols ++ [⟨blk, closestPoint blk q,
            ⟨0, -Real.sign (contactDelta blk q).y, 0⟩, overlapY blk q⟩],
         { q with onGround := true }) := by
  unfold narrowPhaseStep
  dsimp only
  rw [if_pos hin, if_pos hvert]

/-- A concrete player squeezed in the height-1 gap between the origin block
(top face at y = 1/2) and the block two above it (bottom face at y = 3/2):
the narrow phase yields a floor contact (overlap 17/40) and a ceiling
contact (overlap 13/40), both non-degenerate vertical contacts. -/
noncomputable def playerSqueezed : PlayerState :=
  ⟨⟨0, 73 / 40, 0⟩, ⟨0, 0, 0⟩, 0, false, 1 / 2, 7 / 4⟩

/-- The floor collision record for the squeezed player (overlap 17/40, the
larger of the two). -/
noncomputable def recFloor : Collision ℝ :=
  ⟨((0 : ℤ), (0 : ℤ), (0 : ℤ)), ⟨0, 1 / 2, 0⟩, ⟨0, 1, 0⟩, 17 / 40⟩

/-- The ceiling collision record (overlap 13/40, the smallest original
overlap of the pass; dy = 11/20 ≠ 0). -/
noncomputable def recCeiling : Collision ℝ :=
  ⟨((0 : ℤ), (2 : ℤ), (0 : ℤ)), ⟨0, 3 / 2, 0⟩, ⟨0, -1, 0⟩, 13 / 40⟩

theorem playerSqueezed_cpF :
    closestPoint ((0 : ℤ), (0 : ℤ), (0 : ℤ)) playerSqueezed = ⟨0, 1 / 2, 0⟩ := by
  norm_num [closestPoint, playerSqueezed, min_def, max_def]

theorem playerSqueezed_dF :
    contactDelta ((0 : ℤ), (0 : ℤ), (0 : ℤ)) playerSqueezed
      = ⟨0, -(9 / 20), 0⟩ := by
  rw [contactDelta, playerSqueezed_cpF]
  norm_num [playerSqueezed]

theorem playerSqueezed_inF :
    pointInPlayerBoundingCylinder
      (closestPoint ((0 : ℤ), (0 : ℤ), (0 : ℤ)) playerSqueezed)
      playerSqueezed := by
  rw [playerSqueezed_cpF]
  norm_num [pointInPlayerBoundingCylinder, playerSqueezed, abs_lt]

theorem playerSqueezed_ovF :
    overlapY ((0 : ℤ), (0 : ℤ), (0 : ℤ)) playerSqueezed = 17 / 40 := by
  rw [overlapY, playerSqueezed_dF]
  norm_num [playerSqueezed, abs_of_nonpos]

theorem playerSqueezed_vertF :
    overlapY ((0 : ℤ), (0 : ℤ), (0 : ℤ)) playerSqueezed
      < overlapXZ ((0 : ℤ), (0 : ℤ), (0 : ℤ)) playerSqueezed := by
  rw [playerSqueezed_ovF, overlapXZ, playerSqueezed_dF]
  norm_num [playerSqueezed, Real.sqrt_zero]

theorem playerSqueezed_cpC :
    closestPoint ((0 : ℤ), (2 : ℤ), (0 : ℤ)) playerSqueezed = ⟨0, 3 / 2, 0⟩ := by
  norm_num [closestPoint, playerSqueezed, min_def, max_def]

theorem playerSqueezed_dC :
    contactDelta ((0 : ℤ), (2 : ℤ), (0 : ℤ)) playerSqueezed
      = ⟨0, 11 / 20, 0⟩ := by
  rw [contactDelta, playerSqueezed_cpC]
  norm_num [playerSqueezed]

theorem playerSqueezed_inC :
    pointInPlayerBoundingCylinder
      (closestPoint ((0 : ℤ), (2 : ℤ), (0 : ℤ)) playerSqueezed)
      playerSqueezed := by
  rw [playerSqueezed_cpC]
  norm_num [pointInPlayerBoundingCylinder, playerSqueezed, abs_lt]

theorem playerSqueezed_ovC :
    overlapY ((0 : ℤ), (2 : ℤ), (0 : ℤ)) playerSqueezed = 13 / 40 := by
  rw [overlapY, playerSqueezed_dC]
  norm_num [playerSqueezed, abs_of_pos]

theorem playerSqueezed_vertC :
    overlapY ((0 : ℤ), (2 : ℤ), (0 : ℤ)) playerSqueezed
      < overlapXZ ((0 : ℤ), (2 : ℤ), (0 : ℤ)) playerSqueezed := by
  rw [playerSqueezed_ovC, overlapXZ, playerSqueezed_dC]
  norm_num [playerSqueezed, Real.sqrt_zero]

theorem squeeze_narrow_eval :
    narrowPhase [((0 : ℤ), (0 : ℤ), (0 : ℤ)), ((0 : ℤ), (2 : ℤ), (0 : ℤ))]
        playerSqueezed
      = ([recFloor, recCeiling], { playerSqueezed with onGround := true }) := by
  have h1 : narrowPhaseStep ([], playerSqueezed) ((0 : ℤ), (0 : ℤ), (0 : ℤ))
      = ([recFloor], { playerSqueezed with onGround := true }) := by
    rw [narrowPhaseStep_vertical_eval [] playerSqueezed
      ((0 : ℤ), (0 : ℤ), (0 : ℤ)) playerSqueezed_inF playerSqueezed_vertF]
    rw [playerSqueezed_cpF, playerSqueezed_dF, playerSqueezed_ovF]
    norm_num [recFloor, Real.sign_of_neg]
  have h2 : narrowPhaseStep ([recFloor], { playerSqueezed with onGround := true })
      ((0 : ℤ), (2 : ℤ), (0 : ℤ))
      = ([recFloor, recCeiling], { playerSqueezed with onGround := true }) := by
    rw [narrowPhaseStep_vertical_eval [recFloor]
      { playerSqueezed with onGround := true } ((0 : ℤ), (2 : ℤ), (0 : ℤ))
      (show pointInPlayerBoundingCylinder
          (closestPoint ((0 : ℤ), (2 : ℤ), (0 : ℤ))
            { playerSqueezed with onGround := true })
          { playerSqueezed with onGround := true } from playerSqueezed_inC)
      (show overlapY ((0 : ℤ), (2 : ℤ), (0 : ℤ))
            { playerSqueezed with onGround := true }
          < overlapXZ ((0 : ℤ), (2 : ℤ), (0 : ℤ))
            { playerSqueezed with onGround := true } from playerSqueezed_vertC)]
    rw [closestPoint_congr ((0 : ℤ), (2 : ℤ), (0 : ℤ))
        { playerSqueezed with onGround := true } playerSqueezed rfl rfl,
      contactDelta_congr ((0 : ℤ), (2 : ℤ), (0 : ℤ))
        { playerSqueezed with onGround := true } playerSqueezed rfl rfl,
      overlapY_congr ((0 : ℤ), (2 : ℤ), (0 : ℤ))
        { playerSqueezed with onGround := true } playerSqueezed rfl rfl]
    rw [playerSqueezed_cpC, playerSqueezed_dC, playerSqueezed_ovC]
    norm_num [recCeiling, Real.sign_of_pos]
  unfold narrowPhase
  rw [List.foldl_cons, h1, List.foldl_cons, h2, List.foldl_nil]

theorem squeeze_sort :
    sortCollisions [recFloor, recCeiling] = [recFloor, recCeiling] := by
  unfold sortCollisions
  norm_num [List.insertionSort, List.orderedInsert, recFloor, recCeiling]

theorem squeeze_pt1 :
    pointInPlayerBoundingCylinder (⟨(0 : ℝ), 1 / 2, 0⟩ : Vec3 ℝ)
      { playerSqueezed with onGround := true } := by
  norm_num [pointInPlayerBoundingCylinder, playerSqueezed, abs_lt]

theorem squeeze_resolve1 :
    resolveCollision { playerSqueezed with onGround := true } recFloor
      = ⟨⟨0, 9 / 4, 0⟩, ⟨0, 0, 0⟩, 0, true, 1 / 2, 7 / 4⟩ := by
  unfold resolveCollision
  dsimp only
  rw [if_pos (show pointInPlayerBoundingCylinder recFloor.contactPoint
      { playerSqueezed with onGround := true } from squeeze_pt1)]
  norm_num [applyWorldDeltaVelocity, worldVelocity, rotateY, Vec3.add,
    Vec3.smul, Vec3.dot, playerSqueezed, recFloor]

theorem squeeze_pt2 :
    pointInPlayerBoundingCylinder (⟨(0 : ℝ), 3 / 2, 0⟩ : Vec3 ℝ)
      (⟨⟨0, 9 / 4, 0⟩, ⟨0, 0, 0⟩, 0, true, 1 / 2, 7 / 4⟩ : PlayerState) := by
  norm_num [pointInPlayerBoundingCylinder, abs_lt]

theorem squeeze_resolve2 :
    resolveCollision
        (⟨⟨0, 9 / 4, 0⟩, ⟨0, 0, 0⟩, 0, true, 1 / 2, 7 / 4⟩ : PlayerState)
        recCeiling
      = ⟨⟨0, 77 / 40, 0⟩, ⟨0, 0, 0⟩, 0, true, 1 / 2, 7 / 4⟩ := by
  unfold resolveCollision
  dsimp only
  rw [if_pos (show pointInPlayerBoundingCylinder recCeiling.contactPoint
      (⟨⟨0, 9 / 4, 0⟩, ⟨0, 0, 0⟩, 0, true, 1 / 2, 7 / 4⟩ : PlayerState)
      from squeeze_pt2)]
  norm_num [applyWorldDeltaVelocity, worldVelocity, rotateY, Vec3.add,
    Vec3.smul, Vec3.dot, recCeiling]

theorem squeeze_resolve_eval :
    resolveCollisions [recFloor, recCeiling]
        { playerSqueezed with onGround := true }
      = ⟨⟨0, 77 / 40, 0⟩, ⟨0, 0, 0⟩, 0, true, 1 / 2, 7 / 4⟩ := by
  unfold resolveCollisions
  rw [squeeze_sort, List.foldl_cons, squeeze_resolve1, List.foldl_cons,
    squeeze_resolve2, List.foldl_nil]

/-- C6 counterexample, two independent failure modes.

Degenerate mode: on the collision list the narrow phase produces for
`playerCentredOnBlock` against the origin block — a single record, hence the
record with the smallest original overlap — the resolution pass leaves the
contact point strictly inside the bounding cylinder: the zero normal means
the correction displaces the player by nothing, so the penetration is *not*
eliminated.

Multi-record mode: for `playerSqueezed` (floor contact, overlap 17/40, and
ceiling contact, overlap 13/40 — the smallest, with dy = 11/20 ≠ 0, so fully
non-degenerate), the pass resolves the floor record first (the comparator
orders descending), which moves the player up by 17/40; the ceiling record is
then corrected with its stale overlap, and its contact point ends at vertical
distance 9/20 < height/2 from the cylinder centre — still strictly inside.
So even with every normal nonzero, a multi-record pass need not eliminate the
smallest-overlap penetration. -/
theorem resolve_smallest_overlap_not_eliminated_counterexample :
    ((narrowPhase [((0 : ℤ), (0 : ℤ), (0 : ℤ))] playerCentredOnBlock).1.map
        Collision.contactPoint = [⟨0, 1 / 8, 0⟩] ∧
    (narrowPhase [((0 : ℤ), (0 : ℤ), (0 : ℤ))] playerCentredOnBlock).1.map
        Collision.overlap = [1 / 2] ∧
    pointInPlayerBoundingCylinder ⟨0, 1 / 8, 0⟩
      (resolveCollisions
        (narrowPhase [((0 : ℤ), (0 : ℤ), (0 : ℤ))] playerCentredOnBlock).1
        (narrowPhase [((0 : ℤ), (0 : ℤ), (0 : ℤ))] playerCentredOnBlock).2)) ∧
    ((narrowPhase [((0 : ℤ), (0 : ℤ), (0 : ℤ)), ((0 : ℤ), (2 : ℤ), (0 : ℤ))]
        playerSqueezed).1.map Collision.overlap = [17 / 40, 13 / 40] ∧
    (narrowPhase [((0 : ℤ), (0 : ℤ), (0 : ℤ)), ((0 : ℤ), (2 : ℤ), (0 : ℤ))]
        playerSqueezed).1.map Collision.contactPoint
      = [⟨0, 1 / 2, 0⟩, ⟨0, 3 / 2, 0⟩] ∧
    (contactDelta ((0 : ℤ), (2 : ℤ), (0 : ℤ)) playerSqueezed).y ≠ 0 ∧
    pointInPlayerBoundingCylinder ⟨0, 3 / 2, 0⟩
      (resolveCollisions
        (narrowPhase [((0 : ℤ), (0 : ℤ), (0 : ℤ)), ((0 : ℤ), (2 : ℤ), (0 : ℤ))]
          playerSqueezed).1
        (narrowPhase [((0 : ℤ), (0 : ℤ), (0 : ℤ)), ((0 : ℤ), (2 : ℤ), (0 : ℤ))]
          playerSqueezed).2)) := by
  have heval := narrowPhase_single_horizontal ((0 : ℤ), (0 : ℤ), (0 : ℤ))
    playerCentredOnBlock playerCentredOnBlock_in playerCentredOnBlock_horiz
  rw [playerCentredOnBlock_delta] at heval
  rw [zero_vec_normalize] at heval
  have hovXZ : overlapXZ ((0 : ℤ), (0 : ℤ), (0 : ℤ)) playerCentredOnBlock
      = 1 / 2 := by
    rw [overlapXZ, playerCentredOnBlock_delta]
    norm_num [playerCentredOnBlock, Real.sqrt_zero]
  rw [playerCentredOnBlock_cp, hovXZ] at heval
  have hpt : pointInPlayerBoundingCylinder
      (⟨(0 : ℝ), 1 / 8, 0⟩ : Vec3 ℝ) playerCentredOnBlock := by
    norm_num [pointInPlayerBoundingCylinder, playerCentredOnBlock, abs_lt]
  have hres : resolveCollisions
      [⟨((0 : ℤ), (0 : ℤ), (0 : ℤ)), ⟨0, 1 / 8, 0⟩, ⟨0, 0, 0⟩, 1 / 2⟩]
      playerCentredOnBlock = playerCentredOnBlock := by
    rw [resolveCollisions_singleton]
    unfold resolveCollision
    dsimp only
    rw [if_pos hpt]
    simp [applyWorldDeltaVelocity, worldVelocity, rotateY, Vec3.add, Vec3.smul,
      Vec3.dot, playerCentredOnBlock]
  refine ⟨⟨?_, ?_, ?_⟩, ?_, ?_, ?_, ?_⟩
  · rw [heval]
    rfl
  · rw [heval]
    rfl
  · rw [heval]
    dsimp only
    rw [hres]
    exact hpt
  · rw [squeeze_narrow_eval]
    rfl
  · rw [squeeze_narrow_eval]
    rfl
  · rw [playerSqueezed_dC]
    norm_num
  · rw [squeeze_narrow_eval]
    dsimp only
    rw [squeeze_resolve_eval]
    norm_num [pointInPlayerBoundingCylinder, abs_lt]

/-- C6 (amended): when the narrow phase produces a single collision record
for a candidate block and the contact geometry is non-degenerate (`dy ≠ 0`
for a vertical contact; a nonzero horizontal offset for a horizontal one —
otherwise the normal degenerates to the zero vector, see
`resolve_smallest_overlap_not_eliminated_counterexample`), the resolution
pass leaves the contact point of that record (trivially the one with the
smallest original overlap) outside the player's bounding cylinder: its
penetration is eliminated. -/
theorem resolve_single_collision_eliminates (b : ℤ × ℤ × ℤ) (p : PlayerState)
    (hin : pointInPlayerBoundingCylinder (closestPoint b p) p)
    (hvnd : overlapY b p < overlapXZ b p → (contactDelta b p).y ≠ 0)
    (hhnd : ¬ overlapY b p < overlapXZ b p →
      ((contactDelta b p).x ≠ 0 ∨ (contactDelta b p).z ≠ 0)) :
    ¬ pointInPlayerBoundingCylinder (closestPoint b p)
        (resolveCollisions (narrowPhase [b] p).1 (narrowPhase [b] p).2) := by
  by_cases hv : overlapY b p < overlapXZ b p
  · -- vertical contact
    rw [narrowPhase_single_vertical b p hin hv]
    dsimp only
    rw [resolveCollisions_singleton]
    have hinq : pointInPlayerBoundingCylinder
        ((⟨b, closestPoint b p,
            ⟨0, -Real.sign (contactDelta b p).y, 0⟩, overlapY b p⟩ :
          Collision ℝ)).contactPoint { p with onGround := true } := hin
    obtain ⟨hpos, hh, _⟩ := resolveCollision_fields _ _ hinq
    intro hcon
    obtain ⟨h1, _⟩ := hcon
    rw [hpos, hh] at h1
    simp only [Vec3.add, Vec3.smul] at h1
    have hdy : (closestPoint b p).y - (p.position.y - p.height / 2)
        = (contactDelta b p).y := rfl
    rcases (hvnd hv).lt_or_lt with hneg | hp
    · rw [Real.sign_of_neg hneg] at h1
      have hov : overlapY b p = p.height / 2 + (contactDelta b p).y := by
        rw [overlapY, abs_of_neg hneg]
        ring
      have harg : (closestPoint b p).y
          - (p.position.y + overlapY b p * - -1 - p.height / 2)
          = -(p.height / 2) := by
        rw [hov]
        linear_combination hdy
      rw [harg, abs_neg] at h1
      exact absurd h1 (not_lt.mpr (le_abs_self _))
    · rw [Real.sign_of_pos hp] at h1
      have hov : overlapY b p = p.height / 2 - (contactDelta b p).y := by
        rw [overlapY, abs_of_pos hp]
      have harg : (closestPoint b p).y
          - (p.position.y + overlapY b p * -1 - p.height / 2)
          = p.height / 2 := by
        rw [hov]
        linear_combination hdy
      rw [harg] at h1
      exact absurd h1 (not_lt.mpr (le_abs_self _))
  · -- horizontal contact
    rw [narrowPhase_single_horizontal b p hin hv]
    dsimp only
    rw [resolveCollisions_singleton]
    set dx := (contactDelta b p).x with hdxdef
    set dz := (contactDelta b p).z with hdzdef
    have hd := hhnd hv
    have hs : 0 < dx * dx + dz * dz := by
      rcases hd with h | h
      · nlinarith [mul_self_pos.mpr h, mul_self_nonneg dz]
      · nlinarith [mul_self_pos.mpr h, mul_self_nonneg dx]
    set L := Real.sqrt (dx * dx + dz * dz) with hLdef
    have hL : 0 < L := Real.sqrt_pos.mpr hs
    have hLne : L ≠ 0 := ne_of_gt hL
    have hL2 : L * L = dx * dx + dz * dz := Real.mul_self_sqrt hs.le
    have hnorm : Vec3.normalize ⟨-dx, 0, -dz⟩
        = ⟨-dx / L, 0 / L, -dz / L⟩ := by
      unfold Vec3.normalize
      dsimp only
      rw [show -dx * -dx + (0 : ℝ) * 0 + -dz * -dz = dx * dx + dz * dz from by
        ring]
      rw [← hLdef, if_neg hLne]
    rw [hnorm]
    have hcx : (closestPoint b p).x - p.position.x = dx := by
      rw [hdxdef]
      rfl
    have hcz : (closestPoint b p).z - p.position.z = dz := by
      rw [hdzdef]
      rfl
    have hov : overlapXZ b p = p.radius - L := by
      rw [hLdef, hdxdef, hdzdef]
      rfl
    obtain ⟨hpos, _, hrad⟩ := resolveCollision_fields p
      ⟨b, closestPoint b p, ⟨-dx / L, 0 / L, -dz / L⟩, overlapXZ b p⟩ hin
    intro hcon
    obtain ⟨_, h2⟩ := hcon
    rw [hpos, hrad] at h2
    simp only [Vec3.add, Vec3.smul] at h2
    have e1 : (closestPoint b p).x - (p.position.x + overlapXZ b p * (-dx / L))
        = dx * p.radius / L := by
      rw [hov]
      field_simp
      linear_combination L * hcx
    have e2 : (closestPoint b p).z - (p.position.z + overlapXZ b p * (-dz / L))
        = dz * p.radius / L := by
      rw [hov]
      field_simp
      linear_combination L * hcz
    rw [e1, e2] at h2
    have hsq : dx * p.radius / L * (dx * p.radius / L)
        + dz * p.radius / L * (dz * p.radius / L) = p.radius * p.radius := by
      field_simp
      linear_combination (p.radius * p.radius) * hL2.symm
    rw [hsq] at h2
    exact lt_irrefl _ h2

theorem resolve_single_collision_eliminates_witness :
    ¬ pointInPlayerBoundingCylinder
        (closestPoint ((0 : ℤ), (0 : ℤ), (0 : ℤ)) playerOnFloor)
        (resolveCollisions
          (narrowPhase [((0 : ℤ), (0 : ℤ), (0 : ℤ))] playerOnFloor).1
          (narrowPhase [((0 : ℤ), (0 : ℤ), (0 : ℤ))] playerOnFloor).2) :=
  resolve_single_collision_eliminates ((0 : ℤ), (0 : ℤ), (0 : ℤ)) playerOnFloor
    playerOnFloor_in
    (fun _ => by
      rw [playerOnFloor_delta]
      norm_num)
    (fun hc => absurd playerOnFloor_vert hc)

end Physics
